import Mathlib

/-!
Verification of the dataquery-pro backend (database-backend): a shallow
embedding in Lean of the cohort-stratification and daily-distribution logic
from stratification.py and database.py, together with theorems settling the
frozen specification claims.

Conventions used throughout:
- machine floats are modelled as exact rationals; Python floor via int() on a
  nonnegative product of a count and a ratio is modelled by Nat division;
- dictionaries are modelled as association lists with in-place update
  (matching CPython insertion-order semantics);
- library calls whose bodies are outside this repository (numpy random
  choice, scipy tests, sklearn splitters) are modelled by their documented
  contracts, passed in as explicit parameters or hypotheses;
- a Python function that can raise is modelled with Option / Except, the
  none / error case standing for the raised exception.
-/

namespace DataQueryPro

/-! ## Across-campaign and within-campaign splitting (database.py,
`distribute_users_to_campaigns`, lines 1136-1231)

The code computes `base_count = total_users // total_campaigns` and
`remainder = total_users % total_campaigns`, then gives campaign `i`
`base_count + (1 if i >= (total_campaigns - remainder) else 0)` users, taken
as the contiguous slice `iin_values[start_idx:end_idx]`.  The same rule is
reused for groups inside a campaign (lines 1181-1190). -/

/-- Number of users campaign (or group) `i` receives out of `n` users split
across `m` campaigns: `n / m` plus one extra for the last `n % m` campaigns,
mirroring `base_count + (1 if i >= (total_campaigns - remainder) else 0)`. -/
def usersForCampaign (n m i : ℕ) : ℕ :=
  n / m + (if m - n % m ≤ i then 1 else 0)

/-- The list of per-campaign allocation counts, one per campaign index. -/
def campaignCounts (n m : ℕ) : List ℕ :=
  (List.range m).map (usersForCampaign n m)

/-- Cutting a list into consecutive slices of the given lengths; this models
the `start_idx` / `end_idx` slicing loop of the source. -/
def splitByCounts : List ℕ → List α → List (List α)
  | [], _ => []
  | c :: cs, xs => xs.take c :: splitByCounts cs (xs.drop c)

/-- The across-campaign distribution of the incoming identifiers: the slice
assigned to campaign `i` has length `usersForCampaign n m i`. -/
def distributeAcrossCampaigns (iins : List α) (m : ℕ) : List (List α) :=
  splitByCounts (campaignCounts iins.length m) iins

lemma list_range_map_sum (f : ℕ → ℕ) (m : ℕ) :
    ((List.range m).map f).sum = ∑ i ∈ Finset.range m, f i := by
  induction m with
  | zero => simp
  | succ k ih =>
      rw [List.range_succ, List.map_append, List.sum_append,
        Finset.sum_range_succ, ih]
      simp

lemma extras_sum (m r : ℕ) (h : r ≤ m) :
    (∑ i ∈ Finset.range m, if m - r ≤ i then 1 else 0) = r := by
  have hfilter : (Finset.range m).filter (fun i => m - r ≤ i) =
      Finset.Ico (m - r) m := by
    ext i
    simp only [Finset.mem_filter, Finset.mem_range, Finset.mem_Ico]
    omega
  rw [Finset.sum_boole, hfilter]
  simp [Nat.card_Ico]
  omega

lemma campaignCounts_sum (n m : ℕ) (hm : 0 < m) :
    (campaignCounts n m).sum = n := by
  have hr : n % m ≤ m := le_of_lt (Nat.mod_lt _ hm)
  rw [campaignCounts, list_range_map_sum]
  simp only [usersForCampaign]
  rw [Finset.sum_add_distrib, Finset.sum_const, Finset.card_range,
    extras_sum m (n % m) hr, smul_eq_mul]
  exact Nat.div_add_mod n m

lemma splitByCounts_join (cs : List ℕ) (xs : List α) (h : cs.sum = xs.length) :
    (splitByCounts cs xs).flatten = xs := by
  induction cs generalizing xs with
  | nil =>
      simp only [List.sum_nil] at h
      simp [splitByCounts, (List.eq_nil_of_length_eq_zero h.symm)]
  | cons c cs ih =>
      simp only [List.sum_cons] at h
      have hc : c ≤ xs.length := by omega
      have hrest : cs.sum = (xs.drop c).length := by
        rw [List.length_drop]; omega
      simp [splitByCounts, List.flatten, ih (xs.drop c) hrest]

lemma campaignCounts_mem (n m : ℕ) :
    ∀ c ∈ campaignCounts n m, c = n / m ∨ c = n / m + 1 := by
  intro c hc
  simp only [campaignCounts, List.mem_map, List.mem_range] at hc
  obtain ⟨i, _, rfl⟩ := hc
  unfold usersForCampaign
  split <;> omega

/-- C3: given N incoming identifiers (N > 0) and M active campaigns (M > 0),
the across-campaign split gives each campaign N / M identifiers with the last
N % M campaigns (in iteration order) receiving one extra; the allocation is
exhaustive (the slices concatenate back to the input, so the counts sum to
N), every count is N / M or N / M + 1 (max-min difference at most one), and
the worked examples hold: 100 users over 3 campaigns gives [33, 33, 34] and
10 users over 5 groups gives [2, 2, 2, 2, 2].  Determinism holds because the
embedding is a pure function of N, M and the identifier list. -/
theorem C3_across_campaign_split (iins : List String) (m : ℕ)
    (hN : 0 < iins.length) (hM : 0 < m) :
    (campaignCounts iins.length m).sum = iins.length ∧
    (distributeAcrossCampaigns iins m).flatten = iins ∧
    (∀ i, usersForCampaign iins.length m i =
      iins.length / m + (if m - iins.length % m ≤ i then 1 else 0)) ∧
    (∀ c ∈ campaignCounts iins.length m,
      c = iins.length / m ∨ c = iins.length / m + 1) ∧
    campaignCounts 100 3 = [33, 33, 34] ∧
    campaignCounts 10 5 = [2, 2, 2, 2, 2] := by
  refine ⟨campaignCounts_sum _ _ hM, ?_, fun i => rfl,
    campaignCounts_mem _ _, by decide, by decide⟩
  exact splitByCounts_join _ _ (campaignCounts_sum _ _ hM)

/-- Witness for C3 at the concrete input of three identifiers over two
campaigns. -/
theorem C3_across_campaign_split_witness :
    (campaignCounts (["u1", "u2", "u3"] : List String).length 2).sum =
      (["u1", "u2", "u3"] : List String).length ∧
    (distributeAcrossCampaigns (["u1", "u2", "u3"] : List String) 2).flatten =
      ["u1", "u2", "u3"] ∧
    (∀ i, usersForCampaign (["u1", "u2", "u3"] : List String).length 2 i =
      (["u1", "u2", "u3"] : List String).length / 2 +
        (if 2 - (["u1", "u2", "u3"] : List String).length % 2 ≤ i then 1
          else 0)) ∧
    (∀ c ∈ campaignCounts (["u1", "u2", "u3"] : List String).length 2,
      c = (["u1", "u2", "u3"] : List String).length / 2 ∨
      c = (["u1", "u2", "u3"] : List String).length / 2 + 1) ∧
    campaignCounts 100 3 = [33, 33, 34] ∧
    campaignCounts 10 5 = [2, 2, 2, 2, 2] :=
  C3_across_campaign_split ["u1", "u2", "u3"] 2 (by decide) (by decide)

/-! ## Response JSON capping (stratification.py, `stratify_data`,
lines 523-540)

For each split the response reports `num_rows = split_df.shape[0]`, while the
`data` field is `split_df.head(100000)` when the split has more than 100000
rows and the whole split otherwise. -/

/-- Data list placed in the response for one group: capped at the first
100000 records when the group is larger than that. -/
def groupDataJson (split : List α) : List α :=
  if 100000 < split.length then split.take 100000 else split

/-- Reported row count for one group: always the true size of the split. -/
def groupNumRows (split : List α) : ℕ := split.length

/-- C10: each reported group carries its true row count in num_rows, while
its data field holds only the first 100000 records; hence for any group with
more than 100000 rows the data length is strictly below num_rows. -/
theorem C10_json_data_cap (split : List String) :
    groupNumRows split = split.length ∧
    (groupDataJson split).length = min split.length 100000 ∧
    (groupDataJson split).take 100000 = split.take 100000 ∧
    (100000 < split.length →
      (groupDataJson split).length < groupNumRows split) := by
  refine ⟨rfl, ?_, ?_, ?_⟩
  · unfold groupDataJson
    split <;> simp <;> omega
  · unfold groupDataJson
    split
    · simp [List.take_take]
    · rfl
  · intro h
    unfold groupDataJson groupNumRows
    rw [if_pos h]
    simp
    omega

/-- Witness for C10 at a concrete group of 100001 rows, where the capped
data is strictly shorter than the reported num_rows. -/
theorem C10_json_data_cap_witness :
    100000 < (List.replicate 100001 "row").length ∧
    (groupDataJson (List.replicate 100001 "row")).length <
      groupNumRows (List.replicate 100001 "row") :=
  ⟨by simp only [List.length_replicate]; omega,
    (C10_json_data_cap (List.replicate 100001 "row")).2.2.2
      (by simp only [List.length_replicate]; omega)⟩

/-! ## Stored group metadata (database.py, `get_existing_campaign_groups`,
lines 1064-1134)

The function reads the distinct (THEORY_ID, tab1..tab5) rows of
SC_local_control and then of SC_local_target, building one dict entry per
theory id; a target row for a theory id already present overwrites the
control entry in place (CPython dict assignment).  The dict is modelled as
an association list with in-place update (`upsert`). -/

/-- Optional tab1..tab5 metadata attached to a group. -/
structure TabValues where
  tab1 : Option String
  tab2 : Option String
  tab3 : Option String
  tab4 : Option String
  tab5 : Option String
deriving DecidableEq, Repr

/-- One entry of the existing-groups dict: source table, derived group type
and the stored tab metadata. -/
structure StoredGroup where
  table : String
  group_type : String
  tab_values : TabValues
deriving DecidableEq, Repr

/-- Python dict assignment on an association list: replace the value in
place when the key exists, append otherwise. -/
def upsert (k : String) (v : β) : List (String × β) → List (String × β)
  | [] => [(k, v)]
  | (k0, v0) :: rest => if k0 = k then (k0, v) :: rest else (k0, v0) :: upsert k v rest

/-- Model of `get_existing_campaign_groups`: the control rows populate the
dict first (group_type control), then the target rows (group_type target),
overwriting on key collision exactly as the source loops do. -/
def get_existing_campaign_groups (controlRows targetRows : List (String × TabValues)) :
    List (String × StoredGroup) :=
  let afterControl := controlRows.foldl
    (fun acc r => upsert r.1 ⟨"SC_local_control", "control", r.2⟩ acc) []
  targetRows.foldl
    (fun acc r => upsert r.1 ⟨"SC_local_target", "target", r.2⟩ acc) afterControl

/-! ## Within-campaign distribution plan (database.py,
`distribute_users_to_campaigns`, lines 1180-1214) -/

/-- One entry of `group_distributions`: the users assigned to an existing
group along with the metadata carried over verbatim from storage. -/
structure GroupPlanEntry where
  users : List String
  theory_id : String
  group_type : String
  target_table : String
  tab_values : TabValues
deriving DecidableEq, Repr

/-- Characters after the last dot of a character list (the accumulator is
reset at every dot), computing `theory_id.split(".")[-1]`. -/
def suffixChars : List Char → List Char → List Char
  | [], acc => acc
  | c :: rest, acc =>
      if c = '.' then suffixChars rest [] else suffixChars rest (acc ++ [c])

/-- Suffix of a persisted sub-id: the text after the final dot, defaulting
to 1 when the sub-id holds no dot, mirroring the split on the dot at line
1195. -/
def groupSuffix (tid : String) : String :=
  if tid.toList.contains '.' then ⟨suffixChars tid.toList []⟩ else "1"

/-- Decimal parse of a digit list, none on a non-digit, mirroring the
ValueError of `int` on non-numeric text. -/
def digitsToNatAux : List Char → ℕ → Option ℕ
  | [], acc => some acc
  | c :: rest, acc =>
      if c.isDigit then digitsToNatAux rest (acc * 10 + (c.toNat - 48)) else none

/-- Decimal parse of a string given as characters; the empty string fails
like `int` does. -/
def parseDigits (cs : List Char) : Option ℕ :=
  if cs.isEmpty then none else digitsToNatAux cs 0

/-- Group letter computed from the sub-id suffix, mirroring
`chr(ord('A') + int(suffix) - 1)`; none models the ValueError raised by
`int` on a non-numeric suffix. -/
def groupLetter (tid : String) : Option String :=
  match parseDigits (groupSuffix tid).toList with
  | some n => some (Char.ofNat (65 + n - 1)).toString
  | none => none

/-- One step of the within-campaign loop: a nonempty slice of users is
stored (dict assignment keyed by group letter) with the theory id, group
type, target table and tab values taken verbatim from the stored group; an
empty slice is skipped; a letter-parse failure makes the whole distribution
raise (none). -/
def planStep (acc : List (String × GroupPlanEntry))
    (pr : (String × StoredGroup) × List String) :
    Option (List (String × GroupPlanEntry)) :=
  if pr.2.isEmpty then some acc
  else
    match groupLetter pr.1.1 with
    | some letter =>
        some (upsert letter
          ⟨pr.2, pr.1.1, pr.1.2.group_type, pr.1.2.table, pr.1.2.tab_values⟩ acc)
    | none => none

/-- The full within-campaign loop: the campaign users are cut into
consecutive base/remainder slices, one per existing group in iteration
order, and the steps above are folded over the paired groups and slices
starting from the empty dict. -/
def buildGroupPlan (campaignUsers : List String)
    (gs : List (String × StoredGroup)) : Option (List (String × GroupPlanEntry)) :=
  let counts := campaignCounts campaignUsers.length gs.length
  let slices := splitByCounts counts campaignUsers
  (gs.zip slices).foldlM planStep []

/-! ## Daily insertion of the distribution plan (database.py,
`insert_daily_distributed_users`, lines 1233-1356; `insert_control_group`,
lines 718-768; `insert_target_groups`, lines 822-925)

Each group of the plan is written with `additional_fields` set to the stored
tab values; `insert_control_group` and `insert_target_groups` bind exactly
`additional_fields` entries tab1 .. tab5 into every row they execute.
The rows below are the bind tuples handed to `cursor.execute`. -/

/-- One row as bound into an INSERT statement: identifier, sub-id, sink
table, the group type that selected the sink, and the tab metadata. -/
structure WrittenRow where
  iin : String
  theory_id : String
  sink_table : String
  group_type : String
  tabs : TabValues
deriving DecidableEq, Repr

/-- Rows produced for one group of the plan: control groups write each user
once into SC_local_control; target groups write each user into
SC_local_target and mirror it into SC_theory_users, all with the tab values
carried in the plan entry. -/
def rowsForGroup (gd : GroupPlanEntry) : List WrittenRow :=
  if gd.group_type = "control" then
    gd.users.map (fun iin => ⟨iin, gd.theory_id, "SC_local_control", gd.group_type, gd.tab_values⟩)
  else
    gd.users.map (fun iin => ⟨iin, gd.theory_id, "SC_local_target", gd.group_type, gd.tab_values⟩) ++
    gd.users.map (fun iin => ⟨iin, gd.theory_id, "SC_theory_users", gd.group_type, gd.tab_values⟩)

/-- All rows the daily insertion stage binds for a campaign plan. -/
def insert_daily_rows (plan : List (String × GroupPlanEntry)) : List WrittenRow :=
  plan.flatMap (fun p => rowsForGroup p.2)

/-! ## Target-group dual-sink insert (database.py, `insert_target_groups`,
lines 822-925)

The primary sink is the DSSB_APP SC_local_target loop; the secondary sink is
the `insert_into_spss_theory_users` call.  Per-identifier execute outcomes
and connection-level failures are inputs of the model (they depend on the
database); everything after them mirrors the source control flow. -/

/-- Outcome of one sink attempt: either the connection/commit level raises,
or the per-identifier execute loop runs with the given success flags. -/
inductive SinkRun where
  | connFail (msg : String)
  | ran (perIin : List Bool)
deriving DecidableEq, Repr

/-- Result dict of a single sink; inserted_count is absent (none) on the
failure branch, matching the source dict literals. -/
structure SinkResult where
  success : Bool
  inserted_count : Option ℕ
  message : String
deriving DecidableEq, Repr

/-- Model of `insert_into_spss_theory_users`: a connection-level failure
yields success false; otherwise every identifier whose execute succeeded is
counted and success is true (even when the count is zero). -/
def insert_into_spss_theory_users (run : SinkRun) : SinkResult :=
  match run with
  | .ran per =>
      ⟨true, some (per.count true),
        "Inserted " ++ toString (per.count true) ++ " users into SPSS SC_theory_users table"⟩
  | .connFail m => ⟨false, none, "Failed to insert into SPSS SC_theory_users: " ++ m⟩

/-- The secondary call either returns a result or itself raises (caught at
line 897). -/
inductive SecondaryCall where
  | call (run : SinkRun)
  | raised (msg : String)
deriving DecidableEq, Repr

/-- The aggregated `results` dict built by `insert_target_groups`. -/
structure TargetGroupsDetailed where
  dssb_app : Option SinkResult
  spss : Option SinkResult
  overall_success : Bool
  total_inserted : ℕ
  messages : List String
deriving DecidableEq, Repr

/-- Consolidated return value of `insert_target_groups`. -/
structure TargetGroupsOutput where
  success : Bool
  inserted_count : ℕ
  message : String
  detailed_results : TargetGroupsDetailed
deriving DecidableEq, Repr

/-- Model of `insert_target_groups`: primary insert into SC_local_target,
best-effort duplicate into the SPSS mirror, overall success decided by the
primary alone. -/
def insert_target_groups (primary : SinkRun) (secondary : SecondaryCall) :
    TargetGroupsOutput :=
  let res0 : TargetGroupsDetailed := ⟨none, none, false, 0, []⟩
  let res1 : TargetGroupsDetailed :=
    match primary with
    | .ran per =>
        let c := per.count true
        { res0 with
          dssb_app := some ⟨true, some c,
            "Inserted " ++ toString c ++ " users into DSSB_APP SC_local_target"⟩
          total_inserted := res0.total_inserted + c
          messages := res0.messages ++
            ["DSSB_APP: " ++ toString c ++ " users inserted into SC_local_target"] }
    | .connFail m =>
        { res0 with
          dssb_app := some ⟨false, none,
            "Failed to insert into DSSB_APP SC_local_target: " ++ m⟩
          messages := res0.messages ++ ["DSSB_APP Error: " ++ m] }
  let res2 : TargetGroupsDetailed :=
    match secondary with
    | .call run =>
        let sr := insert_into_spss_theory_users run
        if sr.success then
          { res1 with
            spss := some sr
            total_inserted := res1.total_inserted + sr.inserted_count.getD 0
            messages := res1.messages ++
              ["SPSS: " ++ toString (sr.inserted_count.getD 0) ++
                " users inserted into SC_theory_users"] }
        else
          { res1 with
            spss := some sr
            messages := res1.messages ++ ["SPSS Error: " ++ sr.message] }
    | .raised m =>
        { res1 with
          spss := some ⟨false, none, "Failed to duplicate to SPSS: " ++ m⟩
          messages := res1.messages ++ ["SPSS Error: " ++ m] }
  let dssbSuccess := match res2.dssb_app with
    | some r => r.success
    | none => false
  let spssSuccess := match res2.spss with
    | some r => r.success
    | none => false
  let res3 : TargetGroupsDetailed := { res2 with overall_success := dssbSuccess }
  let msg :=
    if dssbSuccess && spssSuccess then
      "Successfully inserted into both databases: " ++ res3.messages.getD 0 "" ++
        ", " ++ res3.messages.getD 1 ""
    else if dssbSuccess then
      "Primary insertion successful: " ++ res3.messages.getD 0 "" ++
        ". SPSS duplication failed: " ++ res3.messages.getD 1 "Unknown error"
    else
      "Primary insertion failed: " ++ res3.messages.getD 0 "Unknown error"
  ⟨dssbSuccess,
    (match res3.dssb_app with
      | some r => if r.success then r.inserted_count.getD 0 else 0
      | none => 0),
    msg, res3⟩

/-- C5: when the primary target-sink loop runs (its per-identifier outcomes
given by per) and the secondary mirror fails entirely - the mirror call
returns a connection-level failure or raises with message m - the overall
operation still reports success true, its inserted_count is the primary
count of successful writes (positive when some identifier was written), and
the aggregated report separates the primary result (success true) from the
secondary result (success false) and carries the secondary error message. -/
theorem C5_secondary_sink_failure_tolerated (per : List Bool) (m : String)
    (secondary : SecondaryCall)
    (hsec : secondary = .call (.connFail m) ∨ secondary = .raised m) :
    (insert_target_groups (.ran per) secondary).success = true ∧
    (insert_target_groups (.ran per) secondary).inserted_count = per.count true ∧
    ((insert_target_groups (.ran per) secondary).detailed_results.dssb_app.map
      (fun r => r.success)) = some true ∧
    ((insert_target_groups (.ran per) secondary).detailed_results.spss.map
      (fun r => r.success)) = some false ∧
    (((insert_target_groups (.ran per) secondary).detailed_results.spss.map
        (fun r => r.message)) =
          some ("Failed to insert into SPSS SC_theory_users: " ++ m) ∨
      ((insert_target_groups (.ran per) secondary).detailed_results.spss.map
        (fun r => r.message)) = some ("Failed to duplicate to SPSS: " ++ m)) ∧
    (0 < per.count true →
      0 < (insert_target_groups (.ran per) secondary).inserted_count) := by
  rcases hsec with h | h <;> subst h <;>
    simp [insert_target_groups, insert_into_spss_theory_users]

/-- Witness for C5: two identifiers both written by the primary sink while
the secondary mirror connection fails. -/
theorem C5_secondary_sink_failure_tolerated_witness :
    (insert_target_groups (.ran [true, true])
      (.call (.connFail "mirror down"))).success = true ∧
    (insert_target_groups (.ran [true, true])
      (.call (.connFail "mirror down"))).inserted_count =
        ([true, true] : List Bool).count true ∧
    ((insert_target_groups (.ran [true, true])
      (.call (.connFail "mirror down"))).detailed_results.dssb_app.map
        (fun r => r.success)) = some true ∧
    ((insert_target_groups (.ran [true, true])
      (.call (.connFail "mirror down"))).detailed_results.spss.map
        (fun r => r.success)) = some false ∧
    (((insert_target_groups (.ran [true, true])
        (.call (.connFail "mirror down"))).detailed_results.spss.map
          (fun r => r.message)) =
            some ("Failed to insert into SPSS SC_theory_users: " ++ "mirror down") ∨
      ((insert_target_groups (.ran [true, true])
        (.call (.connFail "mirror down"))).detailed_results.spss.map
          (fun r => r.message)) =
            some ("Failed to duplicate to SPSS: " ++ "mirror down")) ∧
    (0 < ([true, true] : List Bool).count true →
      0 < (insert_target_groups (.ran [true, true])
        (.call (.connFail "mirror down"))).inserted_count) :=
  C5_secondary_sink_failure_tolerated [true, true] "mirror down"
    (.call (.connFail "mirror down")) (Or.inl rfl)

/-! ## Daily process orchestration (database.py,
`process_daily_user_distribution`, lines 1358-1445;
`get_active_campaigns_for_daily_process`, lines 977-1020;
`get_spss_count_day_5_users`, lines 1022-1062)

Database accesses are inputs of the model: the campaign query either raises
or returns rows, the SPSS user query either raises or returns identifiers,
and the later distribution / insertion stages are abstract collaborators
whose results are passed in as functions. -/

/-- An active campaign row as fetched for the daily process. -/
structure Campaign where
  theory_id : String
  theory_name : String
  theory_start_date : String
  theory_end_date : String
deriving DecidableEq, Repr

/-- Return dict of `get_active_campaigns_for_daily_process`. -/
structure CampaignsFetch where
  success : Bool
  campaigns : List Campaign
  count : ℕ
  message : String
deriving DecidableEq, Repr

/-- Model of `get_active_campaigns_for_daily_process`: a raised database
error becomes success false with empty campaigns, otherwise the fetched
rows with count equal to their number. -/
def get_active_campaigns_for_daily_process (outcome : Except String (List Campaign)) :
    CampaignsFetch :=
  match outcome with
  | .ok rows =>
      ⟨true, rows, rows.length,
        "Found " ++ toString rows.length ++ " active campaigns"⟩
  | .error e => ⟨false, [], 0, "Failed to get active campaigns: " ++ e⟩

/-- Return dict of `get_spss_count_day_5_users`. -/
structure SpssUsersFetch where
  success : Bool
  iin_values : List String
  count : ℕ
  message : String
deriving DecidableEq, Repr

/-- Model of `get_spss_count_day_5_users`: fetched identifiers are trimmed,
empty ones dropped, duplicates removed (the list(set(...)) of the source),
and the count is the number of unique identifiers. -/
def get_spss_count_day_5_users (outcome : Except String (List String)) :
    SpssUsersFetch :=
  match outcome with
  | .ok iins =>
      let uniq := ((iins.map String.trim).filter (fun s => s ≠ "")).dedup
      ⟨true, uniq, uniq.length,
        "Found " ++ toString uniq.length ++
          " unique users with COUNT_DAY > 5 and COUNT_DAY < 31"⟩
  | .error e => ⟨false, [], 0, "Failed to get SPSS users: " ++ e⟩

/-- Distribution plan for one campaign as assembled by
`distribute_users_to_campaigns`. -/
structure CampaignDistribution where
  campaign : Campaign
  base_campaign_id : String
  total_users : ℕ
  existing_groups_count : ℕ
  groups : List (String × GroupPlanEntry)
deriving DecidableEq, Repr

/-- Return dict of `distribute_users_to_campaigns` as consumed by the daily
process. -/
structure DistributionResult where
  success : Bool
  distributions : List CampaignDistribution
  total_users_distributed : ℕ
  message : String
deriving DecidableEq, Repr

/-- Return dict of `insert_daily_distributed_users` as consumed by the
daily process (the per-campaign result dicts are claim-irrelevant here and
omitted). -/
structure InsertionRun where
  total_inserted : ℕ
  success : Bool
  messages : List String
deriving DecidableEq, Repr

/-- Run report of the daily process (the `detailed_results` payload is
omitted; every scalar field of the source dict is kept). -/
structure ProcessResult where
  success : Bool
  process_stage : String
  campaigns_found : ℕ
  users_found : ℕ
  users_distributed : ℕ
  error_message : Option String
  skip_reason : Option String
deriving DecidableEq, Repr

/-- Model of `process_daily_user_distribution`: staged control flow with
early returns for collaborator failures and for the two explicit skip
outcomes. -/
def process_daily_user_distribution
    (campaignsOutcome : Except String (List Campaign))
    (spssOutcome : Except String (List String))
    (distributeFn : List String → List Campaign → DistributionResult)
    (insertFn : List CampaignDistribution → InsertionRun) : ProcessResult :=
  let pr0 : ProcessResult := ⟨false, "getting_active_campaigns", 0, 0, 0, none, none⟩
  let fetch := get_active_campaigns_for_daily_process campaignsOutcome
  if fetch.success = false then
    { pr0 with error_message := some ("Failed to get active campaigns: " ++ fetch.message) }
  else if fetch.count = 0 then
    { pr0 with skip_reason := some "no_active_campaigns", success := true }
  else
    let pr1 := { pr0 with campaigns_found := fetch.count, process_stage := "getting_spss_users" }
    let su := get_spss_count_day_5_users spssOutcome
    if su.success = false then
      { pr1 with error_message := some ("Failed to get SPSS users: " ++ su.message) }
    else if su.count = 0 then
      { pr1 with skip_reason := some "no_count_day_5_users", success := true }
    else
      let pr2 := { pr1 with users_found := su.count, process_stage := "distributing_users" }
      let dr := distributeFn su.iin_values fetch.campaigns
      if dr.success = false then
        { pr2 with
            error_message := some ("Failed to distribute users: " ++ dr.message) }
      else
        let pr3 := { pr2 with process_stage := "inserting_users" }
        let ir := insertFn dr.distributions
        let pr4 := { pr3 with users_distributed := ir.total_inserted }
        if ir.success then
          { pr4 with success := true, process_stage := "completed" }
        else
          { pr4 with
              error_message := some ("Insertion failed: " ++ String.intercalate "; " ir.messages) }

/-- C6: when the active-campaign query succeeds but returns no campaigns,
the daily process reports success true with skip_reason
no_active_campaigns, leaves error_message unset, and never reaches the
distribution or insertion stages (the stage marker still reads
getting_active_campaigns and no user is distributed), whatever the later
collaborators would have done. -/
theorem C6_skip_semantics_no_active_campaigns
    (spssOutcome : Except String (List String))
    (distributeFn : List String → List Campaign → DistributionResult)
    (insertFn : List CampaignDistribution → InsertionRun) :
    process_daily_user_distribution (.ok []) spssOutcome distributeFn insertFn =
      { success := true
        process_stage := "getting_active_campaigns"
        campaigns_found := 0
        users_found := 0
        users_distributed := 0
        error_message := none
        skip_reason := some "no_active_campaigns" } := rfl

/-! ## Balance tests (stratification.py, `calculate_statistical_test`,
lines 55-95, and the memory-efficient wrappers, lines 311-343)

The scipy calls (`ks_2samp`, `chi2_contingency`) live outside this
repository; their behaviour on the given columns is an input of the model
(`LibOutcome`).  Everything else mirrors the source: a numeric column goes
to the KS branch with no exception handler; a categorical column builds the
category union and the 2xM contingency table inside a try block whose except
clause returns statistic infinity, p-value 0 and kind chi2_test_failed; a
degenerate table (zero mass or at most one category) short-circuits to
p-value 1.  The memory-efficient path wraps each call of
`calculate_statistical_test` in its own try block whose except clause
records p-value 0.5 with kind error. -/

/-- A reported test statistic: a finite value or the float infinity used by
the chi-square failure branch. -/
inductive StatVal where
  | fin (q : ℚ)
  | infty
deriving DecidableEq, Repr

/-- Behaviour of a library statistical test on the columns at hand: either
it returns a statistic and a p-value, or it raises. -/
inductive LibOutcome where
  | ok (stat p : ℚ)
  | raises (msg : String)
deriving DecidableEq, Repr

/-- One column comparison between the reference population and a candidate
split: the dtype flag, the library behaviours, and the categorical value
counts of both sides. -/
structure ColComparison where
  numericDtype : Bool
  ksOutcome : LibOutcome
  origCounts : List (String × ℕ)
  splitCounts : List (String × ℕ)
  chi2Outcome : LibOutcome
deriving DecidableEq, Repr

/-- Union of the distinct categories present on either side, mirroring
`set(original_counts.index) | set(split_counts.index)`. -/
def allCategories (c : ColComparison) : List String :=
  (c.origCounts.map Prod.fst ++ c.splitCounts.map Prod.fst).dedup

/-- Count of one category on one side, 0 when absent (the aligned fill). -/
def categoryCount (counts : List (String × ℕ)) (k : String) : ℕ :=
  (counts.lookup k).getD 0

/-- Total mass of the 2xM contingency table. -/
def contingencyTotal (c : ColComparison) : ℕ :=
  ((allCategories c).map
    (fun k => categoryCount c.origCounts k + categoryCount c.splitCounts k)).sum

/-- Model of `calculate_statistical_test`: returns (statistic, p-value,
test kind) or propagates an exception (only possible from the uncaught
numeric KS branch). -/
def calculate_statistical_test (c : ColComparison) :
    Except String (StatVal × ℚ × String) :=
  if c.numericDtype then
    match c.ksOutcome with
    | .ok s p => .ok (.fin s, p, "ks_test")
    | .raises m => .error m
  else
    if 0 < contingencyTotal c ∧ 1 < (allCategories c).length then
      match c.chi2Outcome with
      | .ok s p => .ok (.fin s, p, "chi2_test")
      | .raises _ => .ok (.infty, 0, "chi2_test_failed")
    else
      .ok (.fin 0, 1, "chi2_test")

/-- One entry of a test_statistics dict. -/
structure StatEntry where
  p_value : ℚ
  statistic : StatVal
  test_type : String
deriving DecidableEq, Repr

/-- Model of the per-column try block of the memory-efficient path
(stratification.py lines 311-326 and 328-343): a raised test is caught and
recorded as p-value 0.5 with kind error. -/
def memEffStatEntry (c : ColComparison) : StatEntry :=
  match calculate_statistical_test c with
  | .ok (s, p, t) => ⟨p, s, t⟩
  | .error _ => ⟨1/2, .fin 0, "error"⟩

/-- A numeric column on which the library KS test raises internally. -/
def ksErrorComparison : ColComparison :=
  ⟨true, .raises "numerical error in ks_2samp", [], [], .ok 0 0⟩

/-- Counterexample to C7: on the memory-efficient path an internal error
during the numeric KS test is mapped to p-value 0.5 (not the claimed 0.0)
with kind error, and on the direct path the same error is propagated to the
caller rather than caught. -/
theorem C7_counterexample_error_mapping :
    memEffStatEntry ksErrorComparison = ⟨1/2, .fin 0, "error"⟩ ∧
    (1 : ℚ)/2 ≠ 0 ∧
    calculate_statistical_test ksErrorComparison =
      .error "numerical error in ks_2samp" :=
  ⟨rfl, by norm_num, rfl⟩

/-- C7 as amended: the balance test never raises for a categorical column
(mismatched category sets included); an internal chi-square error is caught
inside the test and mapped to p-value 0 with kind chi2_test_failed (or to
the degenerate p-value 1); the memory-efficient path catches any error that
escapes the test call and maps it to p-value 0.5 with kind error; and the
only errors that escape the test at all come from the numeric KS branch of
the direct path. -/
theorem C7_error_containment_amended :
    (∀ c : ColComparison, c.numericDtype = false →
      ∃ r, calculate_statistical_test c = .ok r) ∧
    (∀ (c : ColComparison) (m : String), c.numericDtype = false →
      c.chi2Outcome = .raises m →
      calculate_statistical_test c = .ok (.infty, 0, "chi2_test_failed") ∨
      calculate_statistical_test c = .ok (.fin 0, 1, "chi2_test")) ∧
    (∀ (c : ColComparison) (m : String),
      calculate_statistical_test c = .error m →
      memEffStatEntry c = ⟨1/2, .fin 0, "error"⟩) ∧
    (∀ (c : ColComparison) (m : String),
      calculate_statistical_test c = .error m →
      c.numericDtype = true ∧ c.ksOutcome = .raises m) := by
  refine ⟨?_, ?_, ?_, ?_⟩
  · intro c hc
    unfold calculate_statistical_test
    rw [hc]
    simp only [Bool.false_eq_true, if_false]
    split
    · cases c.chi2Outcome <;> exact ⟨_, rfl⟩
    · exact ⟨_, rfl⟩
  · intro c m hc hchi
    unfold calculate_statistical_test
    rw [hc, hchi]
    simp only [Bool.false_eq_true, if_false]
    split
    · left; rfl
    · right; rfl
  · intro c m herr
    unfold memEffStatEntry
    rw [herr]
  · intro c m herr
    unfold calculate_statistical_test at herr
    by_cases hnum : c.numericDtype
    · rw [if_pos hnum] at herr
      refine ⟨hnum, ?_⟩
      cases hks : c.ksOutcome with
      | ok s p => rw [hks] at herr; exact absurd herr (by simp)
      | raises m0 => rw [hks] at herr; cases herr; rfl
    · rw [if_neg hnum] at herr
      split at herr <;> first
        | (cases hchi : c.chi2Outcome <;> rw [hchi] at herr <;> cases herr)
        | cases herr

/-- Witness for the amended C7: a categorical comparison with mismatched
category sets whose chi-square call raises is caught and mapped to p-value 0
with kind chi2_test_failed. -/
theorem C7_error_containment_amended_witness :
    calculate_statistical_test
        ⟨false, .ok 0 0, [("x", 2), ("y", 3)], [("x", 1)], .raises "zero expected"⟩ =
      .ok (.infty, 0, "chi2_test_failed") ∨
    calculate_statistical_test
        ⟨false, .ok 0 0, [("x", 2), ("y", 3)], [("x", 1)], .raises "zero expected"⟩ =
      .ok (.fin 0, 1, "chi2_test") :=
  C7_error_containment_amended.2.1
    ⟨false, .ok 0 0, [("x", 2), ("y", 3)], [("x", 1)], .raises "zero expected"⟩
    "zero expected" rfl rfl

/-- C8: whenever the categorical contingency table is degenerate (zero
total mass or at most one category in the union), the balance test returns
p-value 1 with kind chi2_test and does not raise; in particular a column
holding one constant value across the whole population always yields
p-value 1, and on the numeric branch a library KS result of (0, 1) - the
documented outcome for two identical constant samples - passes through as
p-value 1 as well. -/
theorem C8_degenerate_table_balanced :
    (∀ c : ColComparison, c.numericDtype = false →
      (contingencyTotal c = 0 ∨ (allCategories c).length ≤ 1) →
      calculate_statistical_test c = .ok (.fin 0, 1, "chi2_test")) ∧
    (∀ (v : String) (n k : ℕ) (ks chi2 : LibOutcome),
      calculate_statistical_test ⟨false, ks, [(v, n)], [(v, k)], chi2⟩ =
        .ok (.fin 0, 1, "chi2_test")) ∧
    (∀ c : ColComparison, c.numericDtype = true → c.ksOutcome = .ok 0 1 →
      calculate_statistical_test c = .ok (.fin 0, 1, "ks_test")) := by
  have hmain : ∀ c : ColComparison, c.numericDtype = false →
      (contingencyTotal c = 0 ∨ (allCategories c).length ≤ 1) →
      calculate_statistical_test c = .ok (.fin 0, 1, "chi2_test") := by
    intro c hc hdeg
    unfold calculate_statistical_test
    rw [hc]
    simp only [Bool.false_eq_true, if_false]
    have hne : ¬(0 < contingencyTotal c ∧ 1 < (allCategories c).length) := by
      rcases hdeg with h | h <;> omega
    rw [if_neg hne]
  refine ⟨hmain, ?_, ?_⟩
  · intro v n k ks chi2
    apply hmain _ rfl
    right
    show ((([(v, n)] : List (String × ℕ)).map Prod.fst ++
      ([(v, k)] : List (String × ℕ)).map Prod.fst).dedup).length ≤ 1
    simp [List.dedup_cons_of_mem]
  · intro c hc hks
    unfold calculate_statistical_test
    rw [hc, hks]
    simp

/-- Witness for C8: a constant categorical column (every record holds the
same value) yields p-value 1 and no error. -/
theorem C8_degenerate_table_balanced_witness :
    calculate_statistical_test
        ⟨false, .ok 0 0, [("KZ", 5)], [("KZ", 2)], .raises "degenerate"⟩ =
      .ok (.fin 0, 1, "chi2_test") :=
  C8_degenerate_table_balanced.2.1 "KZ" 5 2 (.ok 0 0) (.raises "degenerate")

/-! ## Stratified splitting paths (stratification.py,
`perform_stratification`, lines 98-173) and the sampling extrapolation
(`memory_efficient_stratification`, lines 247-357)

The sklearn splitters are library code; they are modelled by their
documented contracts.  StratifiedKFold yields test-index lists that
partition the row indices (hypothesis of the equal-fold theorem);
StratifiedShuffleSplit cuts the remaining pool into two complementary
parts (hypothesis of the custom-proportion theorem).

On the sampling path the code learns, for every stratum and group index i,
the proportion count / len(split_i) from the sample splits, then draws
`min(int(full_count * proportion), full_count)` records of the stratum for
group i (numpy choice without replacement), appending only nonempty groups.
The draw count is deterministic even though the drawn records are random,
so the reported num_rows of the sampling path are a pure function of the
full per-stratum counts and the sample split per-stratum counts. -/

/-- Row count of one sample split, the denominator `len(split)` of the
learned proportion. -/
def splitTotal (sp : List (String × ℕ)) : ℕ := (sp.map Prod.snd).sum

/-- Number of records drawn from one stratum for one group:
`n_samples = int(stratum_full_count * proportion)` with the exact rational
proportion c / total, drawn only when positive, capped at the stratum
size (numpy choice with replace=False returns exactly this many distinct
records). -/
def stratumDrawCount (nFull c total : ℕ) : ℕ :=
  let nSamples := nFull * c / total
  if 0 < nSamples then min nSamples nFull else 0

/-- Extrapolated size of one group: the sum of its per-stratum draws over
all strata of the full population. -/
def extrapGroupSize (full : List (String × ℕ)) (sp : List (String × ℕ)) : ℕ :=
  (full.map
    (fun sc => stratumDrawCount sc.2 (categoryCount sp sc.1) (splitTotal sp))).sum

/-- Reported num_rows of the groups on the sampling path: one entry per
sample split, with empty groups dropped (the source appends a group only
when `full_split_indices` is nonempty). -/
def extrapGroupSizes (full : List (String × ℕ))
    (sampleSplits : List (List (String × ℕ))) : List ℕ :=
  (sampleSplits.map (extrapGroupSize full)).filter (fun n => decide (0 < n))

/-- Total retained row count of the full population, the total_rows field
of the response. -/
def fullTotal (full : List (String × ℕ)) : ℕ := (full.map Prod.snd).sum

/-- The memory_info.memory_efficient_processing flag of the response:
`use_sampling and len(data) > max_memory_rows` (stratification.py line
558). -/
def memoryEfficientFlag (originalRows maxMemoryRows : ℕ) (useSampling : Bool) : Bool :=
  useSampling && decide (maxMemoryRows < originalRows)

/-- Equal-fold mode: each StratifiedKFold test-index list selects its rows
from the retained population (`df.iloc[test_index]`). -/
def kfoldSplits (folds : List (List ℕ)) (rows : List α) : List (List α) :=
  folds.map (fun f => f.filterMap (fun i => rows[i]?))

/-- Custom-proportion mode: every step but the last peels one group off the
remaining pool via a library split (first component the peeled group,
second the rest); the last group takes all remaining records. -/
def customSplits : List (List α → List α × List α) → List α → List (List α)
  | [], remaining => [remaining]
  | f :: fs, remaining => (f remaining).1 :: customSplits fs (f remaining).2

lemma customSplits_flatten_perm (peels : List (List α → List α × List α))
    (hc : ∀ f ∈ peels, ∀ xs, List.Perm ((f xs).1 ++ (f xs).2) xs) :
    ∀ rows, List.Perm (customSplits peels rows).flatten rows := by
  induction peels with
  | nil =>
      intro rows
      simp [customSplits]
  | cons f fs ih =>
      intro rows
      have hf := hc f (List.mem_cons_self f fs)
      have ihs := ih (fun g hg => hc g (List.mem_cons_of_mem f hg))
      have hstep : (customSplits (f :: fs) rows).flatten
          = (f rows).1 ++ (customSplits fs (f rows).2).flatten := by
        simp [customSplits]
      rw [hstep]
      exact ((ihs (f rows).2).append_left _).trans (hf rows)

lemma flatten_map_filterMap (g : ℕ → Option α) (l : List (List ℕ)) :
    (l.map (fun f => f.filterMap g)).flatten = l.flatten.filterMap g := by
  induction l with
  | nil => simp
  | cons a t ih =>
      simp only [List.map_cons, List.flatten_cons, List.filterMap_append, ih]

lemma filterMap_getElem_range (rows : List α) :
    (List.range rows.length).filterMap (fun i => rows[i]?) = rows := by
  induction rows with
  | nil => simp
  | cons x xs ih =>
      rw [List.length_cons, List.range_succ_eq_map]
      rw [List.filterMap_cons]
      simp only [List.getElem?_cons_zero, List.filterMap_map]
      have : (fun i => (x :: xs)[i + 1]?) = fun i => xs[i]? := by
        funext i
        simp
      simp only [Function.comp_def, List.getElem?_cons_succ]
      rw [ih]

/-- C1 as amended: on the non-sampling paths the groups partition the
retained population exactly - in equal-fold mode whenever the library fold
indices partition the index range, and in custom-proportion mode whenever
every library peel cuts the pool into two complementary parts - so each
retained record lands in exactly one group (the multiset of all group rows
is a permutation of the retained rows) and the reported num_rows sum to
total_rows.  On the sampling path the totals are instead the extrapolated
draw counts, which need not reach total_rows (see the counterexample). -/
theorem C1_partition_on_nonsampling_paths :
    (∀ (rows : List String) (folds : List (List ℕ)),
      List.Perm folds.flatten (List.range rows.length) →
      ((kfoldSplits folds rows).map List.length).sum = rows.length ∧
      List.Perm (kfoldSplits folds rows).flatten rows) ∧
    (∀ (peels : List (List String → List String × List String)) (rows : List String),
      (∀ f ∈ peels, ∀ xs, List.Perm ((f xs).1 ++ (f xs).2) xs) →
      ((customSplits peels rows).map List.length).sum = rows.length ∧
      List.Perm (customSplits peels rows).flatten rows) := by
  constructor
  · intro rows folds hpart
    have hflat : List.Perm (kfoldSplits folds rows).flatten rows := by
      unfold kfoldSplits
      rw [flatten_map_filterMap]
      have h1 : List.Perm (folds.flatten.filterMap (fun i => rows[i]?))
          ((List.range rows.length).filterMap (fun i => rows[i]?)) :=
        hpart.filterMap _
      rw [filterMap_getElem_range rows] at h1
      exact h1
    refine ⟨?_, hflat⟩
    have hlen := hflat.length_eq
    rw [List.length_flatten] at hlen
    simpa using hlen
  · intro peels rows hc
    have hflat := customSplits_flatten_perm peels hc rows
    refine ⟨?_, hflat⟩
    have hlen := hflat.length_eq
    rw [List.length_flatten] at hlen
    simpa using hlen

/-- Witness for the amended C1 on the equal-fold path: two rows split into
two singleton folds. -/
theorem C1_partition_on_nonsampling_paths_witness :
    ((kfoldSplits [[0], [1]] ["r1", "r2"]).map List.length).sum =
      (["r1", "r2"] : List String).length ∧
    List.Perm (kfoldSplits [[0], [1]] ["r1", "r2"]).flatten ["r1", "r2"] :=
  C1_partition_on_nonsampling_paths.1 ["r1", "r2"] [[0], [1]] (by decide)

/-- Full population of an undercounting run of the sampling path: stratum a
has 50001 records and stratum b 50000 (total 100001, above a configured
max_memory_rows of 100000 with use_sampling on, so the sampling path is
taken).  A stratified sample of 50000 rows (25000 per stratum) split by a
2-fold stratified split gives two sample splits of 12500 records per
stratum each, so every learned proportion is exactly one half. -/
def fullCountsUnder : List (String × ℕ) := [("a", 50001), ("b", 50000)]

/-- The two sample splits of the undercounting run: 12500 records per
stratum in each. -/
def sampleSplitsUnder : List (List (String × ℕ)) :=
  [[("a", 12500), ("b", 12500)], [("a", 12500), ("b", 12500)]]

/-- Counterexample to C1: on the sampling path the groups do not partition
the retained population - each group draws floor(50001 / 2) = 25000 records
of stratum a and 25000 of stratum b, so the reported num_rows are 50000 and
50000 and their sum 100000 falls short of total_rows = 100001; the record
of stratum a lost to the floor belongs to no group. -/
theorem C1_counterexample_sampling_path :
    memoryEfficientFlag 100001 100000 true = true ∧
    extrapGroupSizes fullCountsUnder sampleSplitsUnder = [50000, 50000] ∧
    (extrapGroupSizes fullCountsUnder sampleSplitsUnder).sum ≠
      fullTotal fullCountsUnder := by
  refine ⟨rfl, by decide, by decide⟩

/-- Full population of an overcounting run of the sampling path: stratum a
has 90001 records and stratum b 15000 (total 105001, above a configured
max_memory_rows of 100000).  With sample_size 50000 the stratified sampler
caps each stratum at 25000, takes all 15000 b records plus 25000 a records
and tops up with 10000 more a records, so the sample is 35000 a and
15000 b; a 2-fold stratified split of it yields 17500 a and 7500 b per
split, learning the proportions 0.7 for a and 0.3 for b in both groups. -/
def fullCountsOver : List (String × ℕ) := [("a", 90001), ("b", 15000)]

/-- The two sample splits of the overcounting run: 17500 a and 7500 b
records each. -/
def sampleSplitsOver : List (List (String × ℕ)) :=
  [[("a", 17500), ("b", 7500)], [("a", 17500), ("b", 7500)]]

/-- Counterexample to C2: the extrapolated group row counts can exceed the
full population size.  Both groups draw floor(90001 * 0.7) = 63000 records
from stratum a and floor(15000 * 0.3) = 4500 from stratum b, so the groups
report 67500 rows each and their sum 135000 exceeds total_rows = 105001
(stratum a is oversampled because its sample share 0.7 exceeds one half
across two groups). -/
theorem C2_counterexample_extrapolation_overcount :
    memoryEfficientFlag 105001 100000 true = true ∧
    extrapGroupSizes fullCountsOver sampleSplitsOver = [67500, 67500] ∧
    fullTotal fullCountsOver = 105001 ∧
    fullTotal fullCountsOver <
      (extrapGroupSizes fullCountsOver sampleSplitsOver).sum := by
  refine ⟨rfl, by decide, by decide, by decide⟩

lemma stratumDrawCount_le (nFull c total : ℕ) :
    stratumDrawCount nFull c total ≤ nFull := by
  unfold stratumDrawCount
  dsimp only
  split
  · exact min_le_right _ _
  · exact Nat.zero_le _

/-- C2 as amended: the sampling path is flagged in the response
(memory_info.memory_efficient_processing is true for a population of
2000000 rows against max_memory_rows 1500000 with sampling enabled); for
every stratum and group the extrapolation draws
min(floor(full_count * sample_count / split_size), full_count) records
without replacement, never more than the stratum holds; consequently no
single group can exceed the full population size - but the claimed bound on
the SUM of the group row counts fails in general (see the counterexample),
holding only when each stratum's learned proportions across groups have
total mass at most one. -/
theorem C2_extrapolation_amended :
    memoryEfficientFlag 2000000 1500000 true = true ∧
    (∀ nFull c total : ℕ,
      stratumDrawCount nFull c total =
        (if 0 < nFull * c / total then min (nFull * c / total) nFull else 0) ∧
      stratumDrawCount nFull c total ≤ nFull) ∧
    (∀ (full : List (String × ℕ)) (sp : List (String × ℕ)),
      extrapGroupSize full sp ≤ fullTotal full) := by
  refine ⟨rfl, fun nFull c total => ⟨rfl, stratumDrawCount_le _ _ _⟩, ?_⟩
  intro full sp
  unfold extrapGroupSize fullTotal
  apply List.sum_le_sum
  intro sc _
  exact stratumDrawCount_le _ _ _

lemma mem_upsert {k : String} {v : β} {l : List (String × β)} {e : String × β}
    (he : e ∈ upsert k v l) : e = (k, v) ∨ e ∈ l := by
  induction l with
  | nil => simpa [upsert] using he
  | cons p rest ih =>
      obtain ⟨k0, v0⟩ := p
      unfold upsert at he
      by_cases hk : k0 = k
      · rw [if_pos hk] at he
        rcases List.mem_cons.mp he with h | h
        · left; rw [h, hk]
        · right; exact List.mem_cons_of_mem _ h
      · rw [if_neg hk] at he
        rcases List.mem_cons.mp he with h | h
        · right; rw [h]; exact List.mem_cons_self _ _
        · rcases ih h with h1 | h1
          · left; exact h1
          · right; exact List.mem_cons_of_mem _ h1

lemma upsert_keys (k : String) (v : β) (l : List (String × β)) :
    (upsert k v l).map Prod.fst =
      if k ∈ l.map Prod.fst then l.map Prod.fst else l.map Prod.fst ++ [k] := by
  induction l with
  | nil => simp [upsert]
  | cons p rest ih =>
      obtain ⟨k0, v0⟩ := p
      unfold upsert
      by_cases hk : k0 = k
      · subst hk
        simp
      · rw [if_neg hk]
        by_cases hmem : k ∈ rest.map Prod.fst
        · simp only [List.map_cons, ih, if_pos hmem]
          rw [if_pos (List.mem_cons_of_mem _ hmem)]
        · simp only [List.map_cons, ih, if_neg hmem]
          have : k ∉ (k0 :: rest.map Prod.fst) := by
            intro hc
            rcases List.mem_cons.mp hc with h | h
            · exact hk h.symm
            · exact hmem h
          rw [if_neg this]
          simp

lemma upsert_keys_nodup {k : String} {v : β} {l : List (String × β)}
    (h : (l.map Prod.fst).Nodup) : ((upsert k v l).map Prod.fst).Nodup := by
  rw [upsert_keys]
  by_cases hmem : k ∈ l.map Prod.fst
  · rwa [if_pos hmem]
  · rw [if_neg hmem]
    simp [List.nodup_append, h, hmem]

lemma foldl_upsert_nodup (f : γ → String × β) (rows : List γ) :
    ∀ acc : List (String × β), (acc.map Prod.fst).Nodup →
      ((rows.foldl (fun a r => upsert (f r).1 (f r).2 a) acc).map Prod.fst).Nodup := by
  induction rows with
  | nil => intro acc h; simpa using h
  | cons r rest ih =>
      intro acc h
      simp only [List.foldl_cons]
      exact ih _ (upsert_keys_nodup h)

lemma get_existing_campaign_groups_keys_nodup
    (controlRows targetRows : List (String × TabValues)) :
    ((get_existing_campaign_groups controlRows targetRows).map Prod.fst).Nodup := by
  unfold get_existing_campaign_groups
  exact foldl_upsert_nodup
    (fun r : String × TabValues =>
      (r.1, (⟨"SC_local_target", "target", r.2⟩ : StoredGroup)))
    targetRows _
    (foldl_upsert_nodup
      (fun r : String × TabValues =>
        (r.1, (⟨"SC_local_control", "control", r.2⟩ : StoredGroup)))
      controlRows [] (by simp))

lemma lookup_eq_of_mem_of_nodup {l : List (String × β)} {k : String} {v : β}
    (hmem : (k, v) ∈ l) (hnd : (l.map Prod.fst).Nodup) : l.lookup k = some v := by
  induction l with
  | nil => cases hmem
  | cons p rest ih =>
      obtain ⟨k0, v0⟩ := p
      simp only [List.map_cons, List.nodup_cons] at hnd
      rcases List.mem_cons.mp hmem with h | h
      · injection h with hk2 hv2
        subst hk2
        subst hv2
        simp [List.lookup]
      · have hkne : k0 ≠ k := by
          intro hc
          subst hc
          exact hnd.1 (List.mem_map.mpr ⟨(k0, v), h, rfl⟩)
        have hbe : (k == k0) = false := beq_eq_false_iff_ne.mpr (Ne.symm hkne)
        simp only [List.lookup, hbe]
        exact ih h hnd.2

lemma plan_fold_inv (P : String × GroupPlanEntry → Prop)
    (l : List ((String × StoredGroup) × List String))
    (hstep : ∀ pr ∈ l, ∀ letter,
      P (letter, ⟨pr.2, pr.1.1, pr.1.2.group_type, pr.1.2.table, pr.1.2.tab_values⟩)) :
    ∀ acc plan, (∀ e ∈ acc, P e) → l.foldlM planStep acc = some plan →
      ∀ e ∈ plan, P e := by
  induction l with
  | nil =>
      intro acc plan hacc hfold
      simp only [List.foldlM_nil] at hfold
      cases hfold
      exact hacc
  | cons pr rest ih =>
      intro acc plan hacc hfold
      simp only [List.foldlM_cons] at hfold
      unfold planStep at hfold
      by_cases hempty : pr.2.isEmpty
      · rw [if_pos hempty] at hfold
        simp only [Option.bind_eq_bind, Option.some_bind] at hfold
        exact ih (fun q hq lt => hstep q (List.mem_cons_of_mem _ hq) lt) acc plan hacc hfold
      · rw [if_neg hempty] at hfold
        cases hlet : groupLetter pr.1.1 with
        | none => rw [hlet] at hfold; cases hfold
        | some letter =>
            rw [hlet] at hfold
            simp only [Option.bind_eq_bind, Option.some_bind] at hfold
            refine ih (fun q hq lt => hstep q (List.mem_cons_of_mem _ hq) lt) _ plan ?_ hfold
            intro e he
            rcases mem_upsert he with h | h
            · rw [h]
              exact hstep pr (List.mem_cons_self _ _) letter
            · exact hacc e h

lemma rowsForGroup_fields (gd : GroupPlanEntry) (row : WrittenRow)
    (h : row ∈ rowsForGroup gd) :
    row.theory_id = gd.theory_id ∧ row.group_type = gd.group_type ∧
    row.tabs = gd.tab_values ∧
    ((gd.group_type = "control" ∧ row.sink_table = "SC_local_control") ∨
      (gd.group_type ≠ "control" ∧
        (row.sink_table = "SC_local_target" ∨ row.sink_table = "SC_theory_users"))) := by
  unfold rowsForGroup at h
  split at h
  case isTrue hc =>
    obtain ⟨iin, _, rfl⟩ := List.mem_map.mp h
    exact ⟨rfl, rfl, rfl, Or.inl ⟨hc, rfl⟩⟩
  case isFalse hc =>
    rcases List.mem_append.mp h with h1 | h1
    · obtain ⟨iin, _, rfl⟩ := List.mem_map.mp h1
      exact ⟨rfl, rfl, rfl, Or.inr ⟨hc, Or.inl rfl⟩⟩
    · obtain ⟨iin, _, rfl⟩ := List.mem_map.mp h1
      exact ⟨rfl, rfl, rfl, Or.inr ⟨hc, Or.inr rfl⟩⟩

/-- C4: every row bound by the daily insertion stage for a sub-id carries
exactly the group type and tab1..tab5 values that the storage read returned
for that sub-id - the distribution and insertion stages pass the stored
metadata through unchanged and never regenerate it - and the sink table
agrees with the stored group type (control rows go to SC_local_control,
target rows to SC_local_target and its SPSS mirror). -/
theorem C4_tab_metadata_preserved
    (controlRows targetRows : List (String × TabValues))
    (campaignUsers : List String) (plan : List (String × GroupPlanEntry))
    (hplan : buildGroupPlan campaignUsers
      (get_existing_campaign_groups controlRows targetRows) = some plan) :
    ∀ row ∈ insert_daily_rows plan,
      ∃ sg : StoredGroup,
        (get_existing_campaign_groups controlRows targetRows).lookup
          row.theory_id = some sg ∧
        row.group_type = sg.group_type ∧
        row.tabs = sg.tab_values ∧
        ((sg.group_type = "control" → row.sink_table = "SC_local_control") ∧
          (sg.group_type ≠ "control" →
            row.sink_table = "SC_local_target" ∨
            row.sink_table = "SC_theory_users")) := by
  intro row hrow
  set G := get_existing_campaign_groups controlRows targetRows with hG
  obtain ⟨p, hp, hrowp⟩ := List.mem_flatMap.mp hrow
  have hinv : ∀ e ∈ plan, ∃ sg : StoredGroup,
      (e.2.theory_id, sg) ∈ G ∧ e.2.group_type = sg.group_type ∧
      e.2.target_table = sg.table ∧ e.2.tab_values = sg.tab_values := by
    unfold buildGroupPlan at hplan
    refine plan_fold_inv _ _ ?_ [] plan (by simp) hplan
    intro pr hpr letter
    obtain ⟨hgs, _⟩ := List.of_mem_zip hpr
    exact ⟨pr.1.2, by simpa using hgs, rfl, rfl, rfl⟩
  obtain ⟨sg, hmem, htype, _, htabs⟩ := hinv p hp
  obtain ⟨hrid, hrtype, hrtabs, hsink⟩ := rowsForGroup_fields p.2 row hrowp
  refine ⟨sg, ?_, by rw [hrtype, htype], by rw [hrtabs, htabs], ?_, ?_⟩
  · rw [hrid]
    exact lookup_eq_of_mem_of_nodup hmem
      (get_existing_campaign_groups_keys_nodup controlRows targetRows)
  · intro hctl
    rcases hsink with ⟨_, hs⟩ | ⟨hne, _⟩
    · exact hs
    · exact absurd (htype.trans hctl) hne
  · intro hctl
    rcases hsink with ⟨hc, _⟩ | ⟨_, hs⟩
    · exact absurd (htype.symm.trans hc) hctl
    · exact hs

/-- Stored tab metadata of the demo control group. -/
def tabsControlDemo : TabValues := ⟨some "c1", none, none, none, some "c5"⟩

/-- Stored tab metadata of the demo target group. -/
def tabsTargetDemo : TabValues := ⟨some "t1", some "t2", none, none, none⟩

/-- The distribution plan produced for three users over the two demo
groups. -/
def planDemo : List (String × GroupPlanEntry) :=
  [("A", ⟨["i1"], "SC00000042.1", "control", "SC_local_control", tabsControlDemo⟩),
   ("B", ⟨["i2", "i3"], "SC00000042.2", "target", "SC_local_target", tabsTargetDemo⟩)]

/-- The first row bound by the insertion stage for the demo plan. -/
def rowDemo : WrittenRow :=
  ⟨"i1", "SC00000042.1", "SC_local_control", "control", tabsControlDemo⟩

/-- Witness for C4 on a concrete campaign with one stored control group and
one stored target group. -/
theorem C4_tab_metadata_preserved_witness :
    ∃ sg : StoredGroup,
      (get_existing_campaign_groups [("SC00000042.1", tabsControlDemo)]
        [("SC00000042.2", tabsTargetDemo)]).lookup rowDemo.theory_id = some sg ∧
      rowDemo.group_type = sg.group_type ∧
      rowDemo.tabs = sg.tab_values ∧
      ((sg.group_type = "control" → rowDemo.sink_table = "SC_local_control") ∧
        (sg.group_type ≠ "control" →
          rowDemo.sink_table = "SC_local_target" ∨
          rowDemo.sink_table = "SC_theory_users")) :=
  C4_tab_metadata_preserved [("SC00000042.1", tabsControlDemo)]
    [("SC00000042.2", tabsTargetDemo)] ["i1", "i2", "i3"] planDemo
    (by decide) rowDemo (by decide)

/-! ## Iterative p-value validation loop (stratification.py, `stratify_data`,
lines 465-513; `check_p_value_criteria`, lines 176-184; `get_min_p_values`,
lines 187-198)

Active only when both min_p_value and ks_test_columns are supplied.  Each
iteration re-runs stratification with random_state = base_seed +
iteration * 1000 (the per-iteration splits and test scores are an input of
the model, as a function of the seed).  The loop stops once the criteria
are met, keeps the best candidate by the strict comparison
current_min > best_min (best_min is 0 while no candidate is stored), and
after the loop returns best_splits - which is still None when no iteration
ever beat 0, making the subsequent response building raise (modelled by
none).  Python min over an empty sequence also raises (modelled by none in
`minOfSome`). -/

/-- Test scores of one stratification run: one p-value dict per split. -/
abbrev Scores := List (List (String × StatEntry))

/-- Model of `check_p_value_criteria`: false iff some split contains some
monitored column with a p-value below the threshold; a column absent from a
split is skipped. -/
def check_p_value_criteria (scores : Scores) (cols : List String) (minP : ℚ) : Bool :=
  scores.all fun split => cols.all fun c =>
    (split.lookup c).all fun e => decide (minP ≤ e.p_value)

/-- One accumulation step of the per-column minimum: take the minimum with
the p-value when the column is present in the split, keep the accumulator
otherwise (none is the float inf sentinel of the source). -/
def colMinStep (c : String) (acc : Option ℚ) (split : List (String × StatEntry)) :
    Option ℚ :=
  match split.lookup c with
  | some e =>
      match acc with
      | some m => some (min m e.p_value)
      | none => some e.p_value
  | none => acc

/-- Minimum p-value of one monitored column across the splits, none when
the column appears in no split. -/
def colMin (scores : Scores) (c : String) : Option ℚ :=
  scores.foldl (colMinStep c) none

/-- Model of `get_min_p_values`: one entry per monitored column. -/
def get_min_p_values (scores : Scores) (cols : List String) :
    List (String × Option ℚ) :=
  cols.map (fun c => (c, colMin scores c))

/-- Python `min(values that are not None)`: none models the ValueError on
an empty sequence. -/
def minOfSome (l : List (String × Option ℚ)) : Option ℚ :=
  match l.filterMap Prod.snd with
  | [] => none
  | v :: vs => some (vs.foldl min v)

/-- Loop state: the stored best candidate (splits, scores, min p-values)
and the criteria flag. -/
structure BestState (α : Type) where
  best : Option (α × Scores × List (String × Option ℚ))
  criteria_met : Bool

/-- One iteration body of the validation loop (lines 474-500): evaluate the
criteria, compute the per-column minima, and replace the stored best when
the current minimum strictly beats the stored one (0 when nothing is
stored); none models a raised ValueError from min on an empty sequence. -/
def loopStep (cols : List String) (minP : ℚ) (result : α × Scores)
    (st : BestState α) : Option (BestState α) :=
  let met := check_p_value_criteria result.2 cols minP
  let minps := get_min_p_values result.2 cols
  let enter :=
    match st.best with
    | none => true
    | some b => !b.2.2.isEmpty && !minps.isEmpty
  if enter then
    match minOfSome minps with
    | none => none
    | some currentMin =>
        let bestMinOpt : Option ℚ :=
          match st.best with
          | none => some 0
          | some b => if b.2.2.isEmpty then some 0 else minOfSome b.2.2
        match bestMinOpt with
        | none => none
        | some bestMin =>
            if bestMin < currentMin then
              some ⟨some (result.1, result.2, minps), met⟩
            else
              some ⟨st.best, met⟩
  else
    some ⟨st.best, met⟩

/-- The while loop (line 473): runs while iterations remain and the
criteria are unmet; returns the iteration count reached and the final
state. -/
def runLoop (f : ℕ → α × Scores) (cols : List String) (minP : ℚ) :
    ℕ → ℕ → BestState α → Option (ℕ × BestState α)
  | 0, iter, st => some (iter, st)
  | fuel + 1, iter, st =>
      if st.criteria_met then some (iter, st)
      else
        match loopStep cols minP (f iter) st with
        | none => none
        | some st2 => runLoop f cols minP fuel (iter + 1) st2

/-- Outcome of the validated stratification: the returned best splits and
scores plus the iteration_info fields of the response. -/
structure IterationOutcome (α : Type) where
  splits : α
  scores : Scores
  iterations_performed : ℕ
  criteria_met : Bool
  achieved_min_p_values : List (String × Option ℚ)
deriving Repr

/-- The validated stratification driver: iteration i runs the stratifier at
seed baseSeed + i * 1000; after the loop the stored best becomes the
response (none models the crash of the response building when best_splits
is still None). -/
def stratifyWithValidation (f : ℕ → α × Scores) (cols : List String)
    (minP : ℚ) (maxIter baseSeed : ℕ) : Option (IterationOutcome α) :=
  match runLoop (fun i => f (baseSeed + i * 1000)) cols minP maxIter 0 ⟨none, false⟩ with
  | none => none
  | some (iters, st) =>
      match st.best with
      | none => none
      | some b => some ⟨b.1, b.2.1, iters, st.criteria_met, b.2.2⟩

lemma check_eq_true_iff (scores : Scores) (cols : List String) (minP : ℚ) :
    check_p_value_criteria scores cols minP = true ↔
      ∀ sp ∈ scores, ∀ c ∈ cols, ∀ e, sp.lookup c = some e → minP ≤ e.p_value := by
  unfold check_p_value_criteria
  simp only [List.all_eq_true]
  constructor
  · intro h sp hsp c hc e he
    have h2 := h sp hsp c hc
    rw [he] at h2
    simpa using h2
  · intro h sp hsp c hc
    cases he : sp.lookup c with
    | none => rfl
    | some e => simpa using h sp hsp c hc e he

lemma check_eq_false_exists (scores : Scores) (cols : List String) (minP : ℚ)
    (h : check_p_value_criteria scores cols minP = false) :
    ∃ sp ∈ scores, ∃ c ∈ cols, ∃ e, sp.lookup c = some e ∧ e.p_value < minP := by
  by_contra hcon
  push_neg at hcon
  have h2 := (check_eq_true_iff scores cols minP).mpr
    (fun sp hsp c hc e he => hcon sp hsp c hc e he)
  rw [h2] at h
  cases h

lemma colMin_foldl_some (c : String) (scores : Scores) :
    ∀ m : ℚ, ∃ m', scores.foldl (colMinStep c) (some m) = some m' ∧ m' ≤ m := by
  induction scores with
  | nil => intro m; exact ⟨m, rfl, le_refl m⟩
  | cons sp rest ih =>
      intro m
      rw [List.foldl_cons]
      cases hl : sp.lookup c with
      | none =>
          have hstep : colMinStep c (some m) sp = some m := by
            simp [colMinStep, hl]
          rw [hstep]
          exact ih m
      | some e =>
          have hstep : colMinStep c (some m) sp = some (min m e.p_value) := by
            simp [colMinStep, hl]
          rw [hstep]
          obtain ⟨m', hm', hle⟩ := ih (min m e.p_value)
          exact ⟨m', hm', le_trans hle (min_le_left _ _)⟩

lemma colMin_foldl_le (c : String) (e : StatEntry) :
    ∀ (scores : Scores) (sp : List (String × StatEntry)), sp ∈ scores →
      sp.lookup c = some e → ∀ acc : Option ℚ,
      ∃ m, scores.foldl (colMinStep c) acc = some m ∧ m ≤ e.p_value := by
  intro scores
  induction scores with
  | nil => intro sp hsp; cases hsp
  | cons sp0 rest ih =>
      intro sp hsp hl acc
      rw [List.foldl_cons]
      rcases List.mem_cons.mp hsp with heq | htail
      · subst heq
        cases acc with
        | none =>
            have hstep : colMinStep c none sp = some e.p_value := by
              simp [colMinStep, hl]
            rw [hstep]
            exact colMin_foldl_some c rest e.p_value
        | some a =>
            have hstep : colMinStep c (some a) sp = some (min a e.p_value) := by
              simp [colMinStep, hl]
            rw [hstep]
            obtain ⟨m, hm, hle⟩ := colMin_foldl_some c rest (min a e.p_value)
            exact ⟨m, hm, le_trans hle (min_le_right _ _)⟩
      · exact ih sp htail hl (colMinStep c acc sp0)

lemma colMin_le_of_mem (c : String) (e : StatEntry) (scores : Scores)
    (sp : List (String × StatEntry)) (hsp : sp ∈ scores)
    (hl : sp.lookup c = some e) :
    ∃ m, colMin scores c = some m ∧ m ≤ e.p_value :=
  colMin_foldl_le c e scores sp hsp hl none

lemma colMin_foldl_ge (c : String) (minP : ℚ) :
    ∀ scores : Scores, (∀ sp ∈ scores, ∀ e, sp.lookup c = some e → minP ≤ e.p_value) →
      ∀ acc : Option ℚ, (∀ a, acc = some a → minP ≤ a) →
      ∀ m, scores.foldl (colMinStep c) acc = some m → minP ≤ m := by
  intro scores
  induction scores with
  | nil =>
      intro _ acc hacc m hm
      rw [List.foldl_nil] at hm
      exact hacc m hm
  | cons sp rest ih =>
      intro hall acc hacc m hm
      rw [List.foldl_cons] at hm
      refine ih (fun s hs e he => hall s (List.mem_cons_of_mem _ hs) e he) _ ?_ m hm
      intro a ha
      unfold colMinStep at ha
      cases hl : sp.lookup c with
      | none =>
          rw [hl] at ha
          exact hacc a ha
      | some e =>
          rw [hl] at ha
          have hpe : minP ≤ e.p_value := hall sp (List.mem_cons_self _ _) e hl
          cases hoacc : acc with
          | none =>
              rw [hoacc] at ha
              injection ha with ha2
              rw [← ha2]
              exact hpe
          | some a0 =>
              rw [hoacc] at ha
              injection ha with ha2
              rw [← ha2]
              exact le_min (hacc a0 hoacc) hpe

lemma colMin_ge (c : String) (minP : ℚ) (scores : Scores)
    (hall : ∀ sp ∈ scores, ∀ e, sp.lookup c = some e → minP ≤ e.p_value) :
    ∀ m, colMin scores c = some m → minP ≤ m :=
  colMin_foldl_ge c minP scores hall none (by intro a ha; cases ha)

lemma foldl_min_le_seed (vs : List ℚ) : ∀ v : ℚ, vs.foldl min v ≤ v := by
  induction vs with
  | nil => intro v; exact le_refl v
  | cons w ws ih =>
      intro v
      rw [List.foldl_cons]
      exact le_trans (ih (min v w)) (min_le_left _ _)

lemma foldl_min_le (vs : List ℚ) : ∀ (v x : ℚ), x ∈ v :: vs → vs.foldl min v ≤ x := by
  induction vs with
  | nil =>
      intro v x hx
      rcases List.mem_cons.mp hx with h | h
      · rw [h]
        exact le_refl v
      · cases h
  | cons w ws ih =>
      intro v x hx
      rw [List.foldl_cons]
      rcases List.mem_cons.mp hx with h | h
      · rw [h]
        exact le_trans (foldl_min_le_seed ws (min v w)) (min_le_left _ _)
      · rcases List.mem_cons.mp h with h2 | h2
        · rw [h2]
          exact le_trans (foldl_min_le_seed ws (min v w)) (min_le_right _ _)
        · exact ih (min v w) x (List.mem_cons_of_mem _ h2)

lemma foldl_min_ge (vs : List ℚ) :
    ∀ (v minP : ℚ), minP ≤ v → (∀ x ∈ vs, minP ≤ x) → minP ≤ vs.foldl min v := by
  induction vs with
  | nil => intro v _ hv _; exact hv
  | cons w ws ih =>
      intro v minP hv hall
      rw [List.foldl_cons]
      exact ih (min v w) minP (le_min hv (hall w (List.mem_cons_self _ _)))
        (fun x hx => hall x (List.mem_cons_of_mem _ hx))

lemma minOfSome_some_of_entry (l : List (String × Option ℚ)) (c : String) (m : ℚ)
    (hmem : (c, some m) ∈ l) : ∃ q, minOfSome l = some q ∧ q ≤ m := by
  have hm : m ∈ l.filterMap Prod.snd :=
    List.mem_filterMap.mpr ⟨(c, some m), hmem, rfl⟩
  unfold minOfSome
  cases hfm : l.filterMap Prod.snd with
  | nil => rw [hfm] at hm; cases hm
  | cons v vs =>
      rw [hfm] at hm
      exact ⟨vs.foldl min v, rfl, foldl_min_le vs v m hm⟩

lemma minOfSome_ge (l : List (String × Option ℚ)) (minP : ℚ)
    (hall : ∀ p ∈ l, ∀ m, p.2 = some m → minP ≤ m) :
    ∀ q, minOfSome l = some q → minP ≤ q := by
  intro q hq
  unfold minOfSome at hq
  cases hfm : l.filterMap Prod.snd with
  | nil => rw [hfm] at hq; cases hq
  | cons v vs =>
      rw [hfm] at hq
      injection hq with hq2
      rw [← hq2]
      have hvmem : ∀ x ∈ v :: vs, minP ≤ x := by
        intro x hx
        rw [← hfm] at hx
        obtain ⟨p, hp, hpx⟩ := List.mem_filterMap.mp hx
        exact hall p hp x hpx
      exact foldl_min_ge vs v minP (hvmem v (List.mem_cons_self _ _))
        (fun x hx => hvmem x (List.mem_cons_of_mem _ hx))

lemma not_met_q (scores : Scores) (cols : List String) (minP : ℚ)
    (h : check_p_value_criteria scores cols minP = false) :
    ∃ q, minOfSome (get_min_p_values scores cols) = some q ∧ q < minP := by
  obtain ⟨sp, hsp, c, hc, e, hl, hlt⟩ := check_eq_false_exists scores cols minP h
  obtain ⟨m, hm, hle⟩ := colMin_le_of_mem c e scores sp hsp hl
  have hmem : (c, some m) ∈ get_min_p_values scores cols := by
    unfold get_min_p_values
    exact List.mem_map.mpr ⟨c, hc, by rw [hm]⟩
  obtain ⟨q, hq, hqle⟩ := minOfSome_some_of_entry _ _ _ hmem
  exact ⟨q, hq, lt_of_le_of_lt (le_trans hqle hle) hlt⟩

lemma met_q_ge (scores : Scores) (cols : List String) (minP : ℚ) (q : ℚ)
    (h : check_p_value_criteria scores cols minP = true)
    (hq : minOfSome (get_min_p_values scores cols) = some q) : minP ≤ q := by
  refine minOfSome_ge _ minP ?_ q hq
  intro p hp m hm
  obtain ⟨c, hc, rfl⟩ := List.mem_map.mp hp
  exact colMin_ge c minP scores
    (fun sp hsp e he => (check_eq_true_iff scores cols minP).mp h sp hsp c hc e he) m hm

lemma get_min_p_values_isEmpty (scores : Scores) (cols : List String)
    (hcols : cols ≠ []) : (get_min_p_values scores cols).isEmpty = false := by
  unfold get_min_p_values
  cases cols with
  | nil => exact absurd rfl hcols
  | cons c cs => rfl

/-- Minimum observed p-value of iteration j (over the monitored columns
present in some split), none when undefined. -/
def iterQ (f' : ℕ → α × Scores) (cols : List String) (j : ℕ) : Option ℚ :=
  minOfSome (get_min_p_values (f' j).2 cols)

/-- Loop invariant after processing iterations below i, none of which met
the criteria: the flag is down, and the stored best is either absent (every
observed minimum so far was at most 0) or the candidate of some iteration j
whose positive minimum dominates all observed minima. -/
def InvState (f' : ℕ → α × Scores) (cols : List String) (minP : ℚ)
    (i : ℕ) (st : BestState α) : Prop :=
  st.criteria_met = false ∧
  ((st.best = none ∧ ∀ j < i, ∀ qj, iterQ f' cols j = some qj → qj ≤ 0) ∨
    (∃ j, j < i ∧ ∃ qj, iterQ f' cols j = some qj ∧ 0 < qj ∧ qj < minP ∧
      st.best = some ((f' j).1, (f' j).2, get_min_p_values (f' j).2 cols) ∧
      ∀ j' < i, ∀ qj', iterQ f' cols j' = some qj' → qj' ≤ qj))

lemma loopStep_preserves (f' : ℕ → α × Scores) (cols : List String)
    (minP : ℚ) (i : ℕ) (st : BestState α) (hcols : cols ≠ [])
    (hnm : check_p_value_criteria (f' i).2 cols minP = false)
    (hinv : InvState f' cols minP i st) :
    ∃ st2, loopStep cols minP (f' i) st = some st2 ∧
      InvState f' cols minP (i + 1) st2 := by
  obtain ⟨qi, hqi, hqilt⟩ := not_met_q (f' i).2 cols minP hnm
  obtain ⟨stBest, stMet⟩ := st
  obtain ⟨hMet, hbranch⟩ := hinv
  rcases hbranch with ⟨hnone, hall0⟩ | ⟨j, hj, qj, hqj, hqjpos, hqjlt, hbest, hmax⟩
  · have hb : stBest = none := hnone
    subst hb
    by_cases hpos : (0 : ℚ) < qi
    · refine ⟨⟨some ((f' i).1, (f' i).2, get_min_p_values (f' i).2 cols),
        check_p_value_criteria (f' i).2 cols minP⟩, ?_, ?_⟩
      · unfold loopStep
        try dsimp only
        rw [hqi]
        try dsimp only
        rw [if_pos hpos]
        rfl
      · refine ⟨hnm, Or.inr ⟨i, Nat.lt_succ_self i, qi, hqi, hpos, hqilt, rfl, ?_⟩⟩
        intro j' hj' qj' hqj'
        rcases Nat.lt_succ_iff_lt_or_eq.mp hj' with h | h
        · exact le_trans (hall0 j' h qj' hqj') (le_of_lt hpos)
        · subst h
          unfold iterQ at hqj'
          rw [hqi] at hqj'
          injection hqj' with h2
          rw [h2]
    · refine ⟨⟨none, check_p_value_criteria (f' i).2 cols minP⟩, ?_, ?_⟩
      · unfold loopStep
        try dsimp only
        rw [hqi]
        try dsimp only
        rw [if_neg hpos]
        rfl
      · refine ⟨hnm, Or.inl ⟨rfl, ?_⟩⟩
        intro j' hj' qj' hqj'
        rcases Nat.lt_succ_iff_lt_or_eq.mp hj' with h | h
        · exact hall0 j' h qj' hqj'
        · subst h
          unfold iterQ at hqj'
          rw [hqi] at hqj'
          injection hqj' with h2
          rw [h2] at hpos
          exact le_of_not_lt hpos
  · have hb : stBest = some ((f' j).1, (f' j).2, get_min_p_values (f' j).2 cols) :=
      hbest
    subst hb
    have hej : (get_min_p_values (f' j).2 cols).isEmpty = false :=
      get_min_p_values_isEmpty _ _ hcols
    have hei : (get_min_p_values (f' i).2 cols).isEmpty = false :=
      get_min_p_values_isEmpty _ _ hcols
    have hqjm : minOfSome (get_min_p_values (f' j).2 cols) = some qj := hqj
    by_cases hlt : qj < qi
    · refine ⟨⟨some ((f' i).1, (f' i).2, get_min_p_values (f' i).2 cols),
        check_p_value_criteria (f' i).2 cols minP⟩, ?_, ?_⟩
      · unfold loopStep
        simp only [hej, hei, hqi, hqjm, Bool.not_false, Bool.and_self, if_true,
          Bool.false_eq_true, if_false]
        rw [if_pos hlt]
      · refine ⟨hnm, Or.inr ⟨i, Nat.lt_succ_self i, qi, hqi,
          lt_trans hqjpos hlt, hqilt, rfl, ?_⟩⟩
        intro j' hj' qj' hqj'
        rcases Nat.lt_succ_iff_lt_or_eq.mp hj' with h | h
        · exact le_trans (hmax j' h qj' hqj') (le_of_lt hlt)
        · subst h
          unfold iterQ at hqj'
          rw [hqi] at hqj'
          injection hqj' with h2
          rw [h2]
    · refine ⟨⟨some ((f' j).1, (f' j).2, get_min_p_values (f' j).2 cols),
        check_p_value_criteria (f' i).2 cols minP⟩, ?_, ?_⟩
      · unfold loopStep
        simp only [hej, hei, hqi, hqjm, Bool.not_false, Bool.and_self, if_true,
          Bool.false_eq_true, if_false]
        rw [if_neg hlt]
      · refine ⟨hnm, Or.inr ⟨j, Nat.lt_succ_of_lt hj, qj, hqj, hqjpos, hqjlt,
          rfl, ?_⟩⟩
        intro j' hj' qj' hqj'
        rcases Nat.lt_succ_iff_lt_or_eq.mp hj' with h | h
        · exact hmax j' h qj' hqj'
        · subst h
          unfold iterQ at hqj'
          rw [hqi] at hqj'
          injection hqj' with h2
          rw [h2] at hlt
          exact le_of_not_lt hlt

lemma loopStep_met (f' : ℕ → α × Scores) (cols : List String)
    (minP : ℚ) (k : ℕ) (st : BestState α) (hcols : cols ≠ []) (hposP : 0 < minP)
    (hmet : check_p_value_criteria (f' k).2 cols minP = true)
    (q : ℚ) (hq : iterQ f' cols k = some q)
    (hinv : InvState f' cols minP k st) :
    loopStep cols minP (f' k) st =
      some ⟨some ((f' k).1, (f' k).2, get_min_p_values (f' k).2 cols), true⟩ := by
  have hge : minP ≤ q := met_q_ge (f' k).2 cols minP q hmet hq
  obtain ⟨stBest, stMet⟩ := st
  obtain ⟨hMet, hbranch⟩ := hinv
  rcases hbranch with ⟨hnone, _⟩ | ⟨j, hj, qj, hqj, hqjpos, hqjlt, hbest, _⟩
  · have hb : stBest = none := hnone
    subst hb
    unfold loopStep
    try dsimp only
    rw [show minOfSome (get_min_p_values (f' k).2 cols) = some q from hq]
    try dsimp only
    rw [if_pos (lt_of_lt_of_le hposP hge), hmet]
    rfl
  · have hb : stBest = some ((f' j).1, (f' j).2, get_min_p_values (f' j).2 cols) :=
      hbest
    subst hb
    have hej : (get_min_p_values (f' j).2 cols).isEmpty = false :=
      get_min_p_values_isEmpty _ _ hcols
    have hek : (get_min_p_values (f' k).2 cols).isEmpty = false :=
      get_min_p_values_isEmpty _ _ hcols
    have hqm : minOfSome (get_min_p_values (f' k).2 cols) = some q := hq
    have hqjm : minOfSome (get_min_p_values (f' j).2 cols) = some qj := hqj
    unfold loopStep
    simp only [hej, hek, hqm, hqjm, Bool.not_false, Bool.and_self, if_true,
      Bool.false_eq_true, if_false, hmet]
    rw [if_pos (lt_of_lt_of_le hqjlt hge)]

lemma runLoop_succ (f' : ℕ → α × Scores) (cols : List String) (minP : ℚ)
    (fuel i : ℕ) (st : BestState α) :
    runLoop f' cols minP (fuel + 1) i st =
      (if st.criteria_met = true then some (i, st)
        else
          match loopStep cols minP (f' i) st with
          | none => none
          | some st2 => runLoop f' cols minP fuel (i + 1) st2) := rfl

lemma runLoop_met_now (f' : ℕ → α × Scores) (cols : List String) (minP : ℚ)
    (fuel i : ℕ) (st : BestState α) (h : st.criteria_met = true) :
    runLoop f' cols minP fuel i st = some (i, st) := by
  cases fuel with
  | zero => rfl
  | succ n =>
      rw [runLoop_succ, if_pos h]

lemma runLoop_progress (f' : ℕ → α × Scores) (cols : List String) (minP : ℚ)
    (hcols : cols ≠ []) :
    ∀ (fuel i : ℕ) (st : BestState α),
      (∀ j, i ≤ j → j < i + fuel →
        check_p_value_criteria (f' j).2 cols minP = false) →
      InvState f' cols minP i st →
      ∃ st', runLoop f' cols minP fuel i st = some (i + fuel, st') ∧
        InvState f' cols minP (i + fuel) st' := by
  intro fuel
  induction fuel with
  | zero =>
      intro i st _ hinv
      exact ⟨st, rfl, hinv⟩
  | succ n ih =>
      intro i st hall hinv
      obtain ⟨st2, hstep, hinv2⟩ := loopStep_preserves f' cols minP i st hcols
        (hall i (le_refl i) (by omega)) hinv
      have hnm : st.criteria_met = false := hinv.1
      rw [runLoop_succ, if_neg (by rw [hnm]; exact Bool.false_ne_true), hstep]
      dsimp only
      obtain ⟨st', hrun, hinv'⟩ := ih (i + 1) st2
        (fun j h1 h2 => hall j (by omega) (by omega)) hinv2
      refine ⟨st', ?_, ?_⟩
      · rw [hrun]
        congr 2
        omega
      · have : i + 1 + n = i + (n + 1) := by omega
        rwa [this] at hinv'

lemma runLoop_add (f' : ℕ → α × Scores) (cols : List String) (minP : ℚ) :
    ∀ (a b i : ℕ) (st : BestState α),
      runLoop f' cols minP (a + b) i st =
        (runLoop f' cols minP a i st).bind
          (fun r => runLoop f' cols minP b r.1 r.2) := by
  intro a
  induction a with
  | zero =>
      intro b i st
      rw [Nat.zero_add]
      rfl
  | succ n ih =>
      intro b i st
      rw [Nat.succ_add]
      by_cases hmet : st.criteria_met = true
      · rw [runLoop_met_now f' cols minP _ _ _ hmet,
          runLoop_met_now f' cols minP _ _ _ hmet]
        exact (runLoop_met_now f' cols minP b i st hmet).symm
      · show runLoop f' cols minP ((n + b) + 1) i st = _
        rw [runLoop_succ, runLoop_succ, if_neg hmet, if_neg hmet]
        cases hstep : loopStep cols minP (f' i) st with
        | none => rfl
        | some st2 =>
            dsimp only
            exact ih b (i + 1) st2

/-- C9 as amended: with both a threshold and a nonempty monitored-column
list supplied, iteration i of the validation loop re-runs stratification at
seed base + i * 1000.  Given a positive threshold, the loop stops early at
the first iteration k meeting the criteria (every monitored p-value in
every group at least the threshold), returning that split with
iteration_info fields iterations_performed = k + 1, criteria_met = true and
its achieved min p-values.  After exhausting max_iterations without meeting
the criteria, it returns the best-observed split - one whose minimum
p-value dominates every iteration's - with criteria_met = false, PROVIDED
some iteration observed a positive minimum; when every observed minimum is
0 the loop keeps no best and the run fails instead (see the
counterexample). -/
theorem C9_validation_loop_amended {α : Type} :
    (∀ (f : ℕ → α × Scores) (cols : List String) (minP : ℚ)
        (maxIter base k : ℕ),
      cols ≠ [] → 0 < minP → k < maxIter →
      (∀ j < k, check_p_value_criteria (f (base + j * 1000)).2 cols minP = false) →
      check_p_value_criteria (f (base + k * 1000)).2 cols minP = true →
      (∃ q, minOfSome (get_min_p_values (f (base + k * 1000)).2 cols) = some q) →
      stratifyWithValidation f cols minP maxIter base =
        some ⟨(f (base + k * 1000)).1, (f (base + k * 1000)).2, k + 1, true,
          get_min_p_values (f (base + k * 1000)).2 cols⟩) ∧
    (∀ (f : ℕ → α × Scores) (cols : List String) (minP : ℚ) (maxIter base : ℕ),
      cols ≠ [] →
      (∀ j < maxIter,
        check_p_value_criteria (f (base + j * 1000)).2 cols minP = false) →
      (∃ j, j < maxIter ∧ ∃ qj,
        minOfSome (get_min_p_values (f (base + j * 1000)).2 cols) = some qj ∧
        0 < qj) →
      ∃ j, j < maxIter ∧
        stratifyWithValidation f cols minP maxIter base =
          some ⟨(f (base + j * 1000)).1, (f (base + j * 1000)).2, maxIter, false,
            get_min_p_values (f (base + j * 1000)).2 cols⟩ ∧
        ∃ qj,
          minOfSome (get_min_p_values (f (base + j * 1000)).2 cols) = some qj ∧
          ∀ j' < maxIter, ∀ qj',
            minOfSome (get_min_p_values (f (base + j' * 1000)).2 cols) = some qj' →
            qj' ≤ qj) := by
  constructor
  · intro f cols minP maxIter base k hcols hposP hk hprev hmet hqex
    obtain ⟨q, hq⟩ := hqex
    have hinv0 : InvState (fun i => f (base + i * 1000)) cols minP 0 ⟨none, false⟩ :=
      ⟨rfl, Or.inl ⟨rfl, fun j hj qj _ => absurd hj (Nat.not_lt_zero j)⟩⟩
    obtain ⟨stk, hrunk, hinvk⟩ :=
      runLoop_progress (fun i => f (base + i * 1000)) cols minP hcols k 0
        ⟨none, false⟩ (fun j h1 h2 => hprev j (by omega)) hinv0
    rw [Nat.zero_add] at hrunk hinvk
    have hq' : iterQ (fun i => f (base + i * 1000)) cols k = some q := hq
    have hstep := loopStep_met (fun i => f (base + i * 1000)) cols minP k stk
      hcols hposP hmet q hq' hinvk
    have hfull : runLoop (fun i => f (base + i * 1000)) cols minP maxIter 0
        ⟨none, false⟩ =
        some (k + 1, ⟨some ((f (base + k * 1000)).1, (f (base + k * 1000)).2,
          get_min_p_values (f (base + k * 1000)).2 cols), true⟩) := by
      have hsplit : maxIter = k + (maxIter - k) := by omega
      rw [hsplit, runLoop_add]
      rw [hrunk]
      have hm : maxIter - k = (maxIter - k - 1) + 1 := by omega
      rw [Option.some_bind]
      dsimp only
      rw [hm, runLoop_succ,
        if_neg (by rw [hinvk.1]; exact Bool.false_ne_true), hstep]
      dsimp only
      exact runLoop_met_now _ _ _ _ _ _ rfl
    unfold stratifyWithValidation
    rw [hfull]
  · intro f cols minP maxIter base hcols hall hqex
    have hinv0 : InvState (fun i => f (base + i * 1000)) cols minP 0 ⟨none, false⟩ :=
      ⟨rfl, Or.inl ⟨rfl, fun j hj qj _ => absurd hj (Nat.not_lt_zero j)⟩⟩
    obtain ⟨st', hrun, hinv'⟩ :=
      runLoop_progress (fun i => f (base + i * 1000)) cols minP hcols maxIter 0
        ⟨none, false⟩ (fun j h1 h2 => hall j (by omega)) hinv0
    rw [Nat.zero_add] at hrun hinv'
    obtain ⟨hmet', hbranch⟩ := hinv'
    rcases hbranch with ⟨_, hall0⟩ | ⟨j, hj, qj, hqj, hqjpos, _, hbest, hmax⟩
    · obtain ⟨j, hj, qj, hqj, hqjpos⟩ := hqex
      have hle0 : qj ≤ 0 := hall0 j hj qj hqj
      exact absurd hle0 (not_le.mpr hqjpos)
    · refine ⟨j, hj, ?_, qj, hqj, fun j' hj' qj' hqj' => hmax j' hj' qj' hqj'⟩
      obtain ⟨stBest, stMet⟩ := st'
      have hb : stBest = some ((f (base + j * 1000)).1, (f (base + j * 1000)).2,
          get_min_p_values (f (base + j * 1000)).2 cols) := hbest
      have hm : stMet = false := hmet'
      subst hb
      subst hm
      unfold stratifyWithValidation
      rw [hrun]

/-- Scores in which the single monitored column always comes back with
p-value 0 (as the chi2_test_failed branch produces). -/
def zeroScores : Scores := [[("x", ⟨0, .fin 0, "chi2_test_failed"⟩)]]

/-- A stratifier whose every run yields those scores. -/
def zeroRuns : ℕ → Unit × Scores := fun _ => ((), zeroScores)

/-- Counterexample to C9: when every iteration observes a minimum p-value
of 0 (the monitored column fails its test each time), the criteria are
never met, yet the loop never stores a best candidate (0 is not strictly
greater than the initial best of 0), so after exhausting max_iterations the
function does not return the best-observed split - it crashes on the None
best (modelled by none). -/
theorem C9_counterexample_all_zero_iterations :
    stratifyWithValidation zeroRuns ["x"] 1 2 42 = none ∧
    check_p_value_criteria zeroScores ["x"] 1 = false ∧
    minOfSome (get_min_p_values zeroScores ["x"]) = some 0 :=
  ⟨rfl, rfl, rfl⟩

/-- Scores in which the single monitored column meets a threshold of 1
immediately. -/
def goodScores : Scores := [[("x", ⟨1, .fin 0, "ks_test"⟩)]]

/-- Witness for the amended C9: a run whose first iteration already meets
the threshold stops early with one iteration performed and returns that
split. -/
theorem C9_validation_loop_amended_witness :
    stratifyWithValidation (fun _ : ℕ => ((), goodScores)) ["x"] 1 3 7 =
      some ⟨(), goodScores, 0 + 1, true, get_min_p_values goodScores ["x"]⟩ :=
  C9_validation_loop_amended.1 (fun _ : ℕ => ((), goodScores)) ["x"] 1 3 7 0
    (by decide) (by norm_num) (by norm_num)
    (fun j hj => absurd hj (Nat.not_lt_zero j)) rfl ⟨1, rfl⟩

end DataQueryPro
